import Mathlib

/-!
Verification of the chunking-and-reassembly translation pipeline of
`app.py` (`translate_text` and the spreadsheet cell dispatch).

Strings are modelled as `List Char`; Python's `len` on a `str` counts code
points, which agrees with `List.length` on `List Char`.  Python's notion of
whitespace (`str.isspace`, `str.strip`) and of line boundaries
(`str.splitlines`) are reproduced character-for-character below.
-/

namespace SpanishTranslator

/-- The characters Python's `str.isspace` (and hence `str.strip`) treats as
whitespace: ASCII whitespace, the C1/Unicode separators, and the Unicode
space category. -/
def pyIsSpace (c : Char) : Bool :=
  c = ' ' || c = '\t' || c = '\n' || c = '\x0b' || c = '\x0c' || c = '\r' ||
  c = '\x1c' || c = '\x1d' || c = '\x1e' || c = '\x1f' || c = '\x85' ||
  c = '\xa0' || c = '\u1680' || ('\u2000' ≤ c && c ≤ '\u200a') ||
  c = '\u2028' || c = '\u2029' || c = '\u202f' || c = '\u205f' || c = '\u3000'

/-- The characters Python's `str.splitlines` treats as line boundaries
(besides the two-character sequence `"\r\n"`, handled in `normalizeCRLF`). -/
def isLineBreak (c : Char) : Bool :=
  c = '\n' || c = '\r' || c = '\x0b' || c = '\x0c' ||
  c = '\x1c' || c = '\x1d' || c = '\x1e' || c = '\x85' ||
  c = '\u2028' || c = '\u2029'

/-- Python's `str.strip()`: remove leading and trailing whitespace. -/
def pyStrip (s : List Char) : List Char :=
  (((s.dropWhile pyIsSpace).reverse).dropWhile pyIsSpace).reverse

/-- Collapse every two-character `"\r\n"` boundary into a single `'\n'`,
so that each remaining line-break character is one boundary.  This is the
first half of Python's `str.splitlines()`. -/
def normalizeCRLF : List Char → List Char
  | [] => []
  | [c] => [c]
  | c :: d :: rest =>
    if c = '\r' && d = '\n' then '\n' :: normalizeCRLF rest
    else c :: normalizeCRLF (d :: rest)

/-- Worker for `pySplitlines`: split at the (already normalized) single-char
line boundaries; `acc` holds the current line reversed.  A boundary that ends
the string produces no trailing empty line, matching Python. -/
def splitBreaksGo : List Char → List Char → List (List Char)
  | [], acc => [acc.reverse]
  | c :: rest, acc =>
    if isLineBreak c then
      (if rest.isEmpty then [acc.reverse] else acc.reverse :: splitBreaksGo rest [])
    else splitBreaksGo rest (c :: acc)

/-- Python's `str.splitlines()`. -/
def pySplitlines (s : List Char) : List (List Char) :=
  if s.isEmpty then [] else splitBreaksGo (normalizeCRLF s) []

/-- Lines 30-31 and 35-36 of `app.py`:
`if current_chunk: chunks.append(current_chunk.strip())`. -/
def flushChunk (chunks : List (List Char)) (current : List Char) : List (List Char) :=
  if current.isEmpty then chunks else chunks ++ [pyStrip current]

/-- One iteration of the chunking loop of `translate_text` (`app.py` lines 28-34). -/
def chunkStep (max_length : Nat) (st : List (List Char) × List Char)
    (line : List Char) : List (List Char) × List Char :=
  if st.2.length + line.length + 1 > max_length then (flushChunk st.1 st.2, line)
  else (st.1, st.2 ++ ' ' :: line)

/-- The chunker of `translate_text` (`app.py` lines 25-36): accumulate lines,
separated by single spaces, flushing the stripped buffer whenever the next
line would push it past `max_length`. -/
def chunk (text : List Char) (max_length : Nat) : List (List Char) :=
  let st := (pySplitlines text).foldl (chunkStep max_length) ([], [])
  flushChunk st.1 st.2

/-- The reassembler (`app.py` line 43): Python's `"\n\n".join(translations)`,
the double-newline separator placed between consecutive segments. -/
def reassemble : List (List Char) → List Char
  | [] => []
  | [c] => c
  | c :: c2 :: rest => c ++ '\n' :: '\n' :: reassemble (c2 :: rest)

/-- The error string of `app.py` line 42: `f"[Translation error: {e}]"`
(the brace-interpolated exception text is the argument `e`). -/
def errorMessage (e : List Char) : List Char :=
  ("[Translation error: ").data ++ e ++ ("]").data

/-- A translation backend: one batch call that either yields the list of
translated segments or fails as a whole with an exception message. -/
def Backend : Type :=
  List (List Char) → Except (List Char) (List (List Char))

/-- The backend adapter (`app.py` lines 38-42): the whole batch is delegated
to the backend; on failure the entire result is the single error string. -/
def translate_batch (backend : Backend) (chunks : List (List Char)) :
    List (List Char) :=
  match backend chunks with
  | .ok rs => rs
  | .error e => [errorMessage e]

/-- The Python values `translate_text` can receive (spreadsheet cells pass
`str(x)` of arbitrary cells; the canvas/file paths pass strings). -/
inductive PyValue where
  | str (s : List Char)
  | int (n : Int)
  | bool (b : Bool)
  | none
deriving DecidableEq

/-- Python truthiness (`not text`) for the modelled values. -/
def pyFalsy : PyValue → Bool
  | .str s => s.isEmpty
  | .int n => n = 0
  | .bool b => !b
  | .none => true

/-- Python's `str()` conversion for the modelled values. -/
def pyStr : PyValue → List Char
  | .str s => s
  | .int n => (toString n).data
  | .bool true => ("True").data
  | .bool false => ("False").data
  | .none => ("None").data

/-- The string carried by a `PyValue.str`, or `[]` otherwise. -/
def strOf : PyValue → List Char
  | .str s => s
  | _ => []

/-- The function `translate_text` (`app.py` lines 17-43), instrumented with the number of
backend invocations it performs (second component).  The guard is line 21:
`if not text or not str(text).strip(): return text`. -/
def translate_textTraced (backend : Backend) (x : PyValue) : PyValue × Nat :=
  if pyFalsy x || (pyStrip (pyStr x)).isEmpty then (x, 0)
  else
    let text := pyStr x
    let chunks := chunk text 450
    (.str (reassemble (translate_batch backend chunks)), 1)

/-- The value the Python function `translate_text` actually returns. -/
def translate_text (backend : Backend) (x : PyValue) : PyValue :=
  (translate_textTraced backend x).1

/-- The spreadsheet cell lambda of `app.py` line 105:
`lambda x: translate_text(str(x)) if isinstance(x, str) and x.strip() else x`
(for a string `x`, `str(x)` is `x` itself). -/
def cellTransform (backend : Backend) (x : PyValue) : PyValue :=
  match x with
  | .str s => if !(pyStrip s).isEmpty then translate_text backend (.str s) else x
  | _ => x

/-- Pandas `df.applymap` (`app.py` line 105): apply a function to every cell
of the spreadsheet, independently. -/
def applymap (f : PyValue → PyValue) (df : List (List PyValue)) :
    List (List PyValue) :=
  df.map fun row => row.map f

/-- A backend that translates each chunk independently with `f` and succeeds:
the behaviour of the Hugging Face pipeline, whose outputs are positionally
aligned with its inputs. -/
def okMap (f : List Char → List Char) : Backend :=
  fun cs => Except.ok (cs.map f)

/-- The identity backend: every chunk is translated to itself. -/
def idBackend : Backend :=
  fun cs => Except.ok cs

/-- The stub translation of the spec's examples: `"Hola" -> "Hello"`,
`"mundo" -> "world"`. -/
def stubF (s : List Char) : List Char :=
  if s = ("Hola").data then ("Hello").data
  else if s = ("mundo").data then ("world").data
  else s

/-- The stub backend built from `stubF`. -/
def stubBackend : Backend := okMap stubF

/-- The non-whitespace content of a string, in order. -/
def content (s : List Char) : List Char :=
  s.filter (fun c => !pyIsSpace c)

/-! ### Helper lemmas -/

theorem pyStrip_nil : pyStrip [] = [] := by
  simp [pyStrip]

theorem pyStrip_length_le (s : List Char) : (pyStrip s).length ≤ s.length := by
  have h1 : (s.dropWhile pyIsSpace).length ≤ s.length :=
    (List.dropWhile_sublist _).length_le
  have h2 : ((s.dropWhile pyIsSpace).reverse.dropWhile pyIsSpace).length ≤
      (s.dropWhile pyIsSpace).reverse.length :=
    (List.dropWhile_sublist _).length_le
  simp only [pyStrip, List.length_reverse] at *
  omega

theorem pyStrip_eq_nil_of_all_space (s : List Char)
    (h : ∀ c ∈ s, pyIsSpace c = true) : pyStrip s = [] := by
  have hd : s.dropWhile pyIsSpace = [] := List.dropWhile_eq_nil_iff.mpr h
  simp [pyStrip, hd]

theorem ne_nil_of_pyStrip_ne_nil {s : List Char} (h : pyStrip s ≠ []) : s ≠ [] := by
  intro he
  exact h (by simp [he, pyStrip_nil])

/-- Unfolding `translate_textTraced` on a string whose stripped form is
non-empty: the guard is passed and the pipeline runs with one backend call. -/
theorem translate_textTraced_str_run (b : Backend) (t : List Char)
    (h : pyStrip t ≠ []) :
    translate_textTraced b (.str t) =
      (.str (reassemble (translate_batch b (chunk t 450))), 1) := by
  have ht : t ≠ [] := ne_nil_of_pyStrip_ne_nil h
  simp [translate_textTraced, pyFalsy, pyStr, h, ht]

theorem reassemble_singleton (m : List Char) : reassemble [m] = m := rfl

theorem splitBreaksGo_no_break (s acc : List Char)
    (h : ∀ c ∈ s, isLineBreak c = false) :
    splitBreaksGo s acc = [acc.reverse ++ s] := by
  induction s generalizing acc with
  | nil => simp [splitBreaksGo]
  | cons c rest ih =>
    have hc := h c (by simp)
    simp only [splitBreaksGo, hc, Bool.false_eq_true, if_false]
    rw [ih _ (fun d hd => h d (by simp [hd]))]
    simp

theorem normalizeCRLF_no_break (s : List Char)
    (h : ∀ c ∈ s, isLineBreak c = false) : normalizeCRLF s = s := by
  induction s with
  | nil => simp [normalizeCRLF]
  | cons c rest ih =>
    cases rest with
    | nil => simp [normalizeCRLF]
    | cons d rest2 =>
      have hc := h c (by simp)
      have hcr : (c = '\r' && d = '\n') = false := by
        have : c ≠ '\r' := by
          intro he; rw [he] at hc; simp [isLineBreak] at hc
        simp [this]
      simp only [normalizeCRLF, hcr, Bool.false_eq_true, if_false]
      rw [ih (fun e he => h e (by simp at he ⊢; tauto))]

theorem pySplitlines_no_break (t : List Char) (hne : t ≠ [])
    (h : ∀ c ∈ t, isLineBreak c = false) : pySplitlines t = [t] := by
  rw [pySplitlines, if_neg (by simp [hne])]
  rw [normalizeCRLF_no_break t h, splitBreaksGo_no_break t [] h]
  simp

theorem pyIsSpace_of_isLineBreak {c : Char} (h : isLineBreak c = true) :
    pyIsSpace c = true := by
  simp only [isLineBreak, Bool.or_eq_true, decide_eq_true_eq] at h
  rcases h with (((((((((h | h) | h) | h) | h) | h) | h) | h) | h) | h) <;>
    subst h <;> decide

theorem content_append (a b : List Char) :
    content (a ++ b) = content a ++ content b := by
  simp [content]

theorem content_space_cons {c : Char} (h : pyIsSpace c = true) (s : List Char) :
    content (c :: s) = content s := by
  simp [content, h]

theorem content_dropWhile (s : List Char) :
    content (s.dropWhile pyIsSpace) = content s := by
  induction s with
  | nil => rfl
  | cons c rest ih =>
    rw [List.dropWhile_cons]
    by_cases h : pyIsSpace c
    · rw [if_pos h, ih, content_space_cons h]
    · rw [if_neg h]

theorem content_reverse (s : List Char) :
    content s.reverse = (content s).reverse := by
  simp [content, List.filter_reverse]

theorem content_pyStrip (s : List Char) : content (pyStrip s) = content s := by
  rw [pyStrip, content_reverse, content_dropWhile, content_reverse,
    content_dropWhile, List.reverse_reverse]

theorem content_reassemble (cs : List (List Char)) :
    content (reassemble cs) = (cs.map content).flatten := by
  induction cs with
  | nil => rfl
  | cons a t ih =>
    cases t with
    | nil => simp [reassemble, content]
    | cons b t2 =>
      rw [show reassemble (a :: b :: t2) = a ++ '\n' :: '\n' :: reassemble (b :: t2)
          from rfl]
      rw [content_append, content_space_cons (by decide),
        content_space_cons (by decide), ih]
      simp

theorem content_cons (c : Char) (u : List Char) :
    content (c :: u) = content [c] ++ content u := by
  by_cases hsp : pyIsSpace c <;> simp [content, List.filter_cons, hsp]

theorem content_splitBreaksGo (s : List Char) :
    ∀ acc, ((splitBreaksGo s acc).map content).flatten =
      content acc.reverse ++ content s := by
  induction s with
  | nil =>
    intro acc
    simp [splitBreaksGo, content]
  | cons c rest ih =>
    intro acc
    by_cases hc : isLineBreak c
    · have hsp : pyIsSpace c = true := pyIsSpace_of_isLineBreak hc
      have hc1 : content (c :: []) = [] := by simp [content, hsp]
      rw [splitBreaksGo, if_pos hc]
      by_cases hr : rest.isEmpty
      · have hre : rest = [] := by simpa using hr
        subst hre
        rw [content_cons, hc1]
        simp [content]
      · rw [if_neg hr]
        simp only [List.map_cons, List.flatten_cons]
        rw [ih [], content_cons, hc1]
        simp [content]
    · rw [splitBreaksGo, if_neg hc, ih (c :: acc), content_cons c rest]
      simp only [List.reverse_cons]
      rw [content_append]
      simp [List.append_assoc]

theorem content_normalizeCRLF (s : List Char) :
    content (normalizeCRLF s) = content s := by
  induction s using normalizeCRLF.induct with
  | case1 => rfl
  | case2 c => rfl
  | case3 c d rest hcd ih =>
    rw [normalizeCRLF, if_pos hcd]
    simp only [Bool.and_eq_true, decide_eq_true_eq] at hcd
    obtain ⟨hc1, hd1⟩ := hcd
    subst hc1
    subst hd1
    rw [content_cons, ih, content_cons '\r' ('\n' :: rest), content_cons '\n' rest]
    have e1 : content ('\n' :: []) = [] := by decide
    have e2 : content ('\r' :: []) = [] := by decide
    rw [e1, e2]
    simp

  | case4 c d rest hcd ih =>
    rw [normalizeCRLF, if_neg (by simpa using hcd)]
    rw [content_cons, ih, ← content_cons]

theorem content_pySplitlines (t : List Char) :
    ((pySplitlines t).map content).flatten = content t := by
  by_cases h : t.isEmpty
  · have : t = [] := by simpa using h
    subst this; rfl
  · rw [pySplitlines, if_neg h, content_splitBreaksGo]
    rw [content_normalizeCRLF]
    simp [content]

theorem content_flushChunk (ch : List (List Char)) (cur : List Char) :
    ((flushChunk ch cur).map content).flatten =
      (ch.map content).flatten ++ content cur := by
  rw [flushChunk]
  by_cases h : cur.isEmpty
  · have : cur = [] := by simpa using h
    subst this
    simp [content]
  · rw [if_neg h]
    simp [content_pyStrip]

theorem content_chunkStep (M : Nat) (st : List (List Char) × List Char)
    (line : List Char) :
    ((chunkStep M st line).1.map content).flatten ++
        content (chunkStep M st line).2 =
      ((st.1.map content).flatten ++ content st.2) ++ content line := by
  rw [chunkStep]
  by_cases h : st.2.length + line.length + 1 > M
  · rw [if_pos h]
    simp [content_flushChunk, List.append_assoc]
  · rw [if_neg h]
    simp [content_append, content_space_cons (show pyIsSpace ' ' = true by decide),
      List.append_assoc]

theorem content_chunk_fold (M : Nat) (lines : List (List Char)) :
    ∀ st, ((lines.foldl (chunkStep M) st).1.map content).flatten ++
        content (lines.foldl (chunkStep M) st).2 =
      ((st.1.map content).flatten ++ content st.2) ++ (lines.map content).flatten := by
  induction lines with
  | nil =>
    intro st
    simp
  | cons l rest ih =>
    intro st
    simp only [List.foldl_cons, List.map_cons, List.flatten_cons]
    rw [ih (chunkStep M st l), content_chunkStep]
    simp [List.append_assoc]

theorem content_chunk (t : List Char) (M : Nat) :
    ((chunk t M).map content).flatten = content t := by
  show ((flushChunk ((pySplitlines t).foldl (chunkStep M) ([], [])).1
      ((pySplitlines t).foldl (chunkStep M) ([], [])).2).map content).flatten = content t
  rw [content_flushChunk, content_chunk_fold]
  simpa [content] using content_pySplitlines t

/-- Invariant of the chunking loop: every flushed chunk fits in `M` unless it
is the stripped form of a single oversized source line, and the running
buffer either fits in `M` or is literally one of the lines seen so far. -/
theorem chunk_fold_invariant (M : Nat) (lines : List (List Char)) :
    ∀ (done : List (List Char)) (st : List (List Char) × List Char),
      (∀ c ∈ st.1, c.length ≤ M ∨ ∃ l ∈ done, c = pyStrip l ∧ M < l.length) →
      (st.2.length ≤ M ∨ st.2 ∈ done) →
      ∀ c ∈ flushChunk (lines.foldl (chunkStep M) st).1
          (lines.foldl (chunkStep M) st).2,
        c.length ≤ M ∨ ∃ l ∈ done ++ lines, c = pyStrip l ∧ M < l.length := by
  induction lines with
  | nil =>
    intro done st h1 h2 c hc
    simp only [List.foldl_nil] at hc
    rw [flushChunk] at hc
    by_cases he : st.2.isEmpty
    · rw [if_pos he] at hc
      simpa using h1 c hc
    · rw [if_neg he] at hc
      rcases List.mem_append.mp hc with hmem | hmem
      · simpa using h1 c hmem
      · have hcs : c = pyStrip st.2 := by simpa using hmem
        rcases h2 with hlen | hdone
        · left
          calc c.length = (pyStrip st.2).length := by rw [hcs]
            _ ≤ st.2.length := pyStrip_length_le st.2
            _ ≤ M := hlen
        · by_cases hbig : st.2.length ≤ M
          · left
            calc c.length = (pyStrip st.2).length := by rw [hcs]
              _ ≤ st.2.length := pyStrip_length_le st.2
              _ ≤ M := hbig
          · right
            exact ⟨st.2, by simpa using hdone, hcs, by omega⟩
  | cons line rest ih =>
    intro done st h1 h2 c hc
    simp only [List.foldl_cons] at hc
    have key := ih (done ++ [line]) (chunkStep M st line) ?_ ?_ c hc
    · rcases key with hlen | ⟨l, hl, hcl, hbig⟩
      · exact Or.inl hlen
      · refine Or.inr ⟨l, ?_, hcl, hbig⟩
        simpa [List.append_assoc] using hl
    · -- flushed chunks of the new state
      intro d hd
      rw [chunkStep] at hd
      by_cases hcond : st.2.length + line.length + 1 > M
      · rw [if_pos hcond] at hd
        simp only at hd
        rw [flushChunk] at hd
        by_cases he : st.2.isEmpty
        · rw [if_pos he] at hd
          rcases h1 d hd with hlen | ⟨l, hl, hdl, hbig⟩
          · exact Or.inl hlen
          · exact Or.inr ⟨l, List.mem_append_left _ hl, hdl, hbig⟩
        · rw [if_neg he] at hd
          rcases List.mem_append.mp hd with hmem | hmem
          · rcases h1 d hmem with hlen | ⟨l, hl, hdl, hbig⟩
            · exact Or.inl hlen
            · exact Or.inr ⟨l, List.mem_append_left _ hl, hdl, hbig⟩
          · have hds : d = pyStrip st.2 := by simpa using hmem
            rcases h2 with hlen | hdone
            · left
              calc d.length = (pyStrip st.2).length := by rw [hds]
                _ ≤ st.2.length := pyStrip_length_le st.2
                _ ≤ M := hlen
            · by_cases hbig : st.2.length ≤ M
              · left
                calc d.length = (pyStrip st.2).length := by rw [hds]
                  _ ≤ st.2.length := pyStrip_length_le st.2
                  _ ≤ M := hbig
              · exact Or.inr ⟨st.2, List.mem_append_left _ hdone, hds, by omega⟩
      · rw [if_neg hcond] at hd
        simp only at hd
        rcases h1 d hd with hlen | ⟨l, hl, hdl, hbig⟩
        · exact Or.inl hlen
        · exact Or.inr ⟨l, List.mem_append_left _ hl, hdl, hbig⟩
    · -- the new buffer
      rw [chunkStep]
      by_cases hcond : st.2.length + line.length + 1 > M
      · rw [if_pos hcond]
        exact Or.inr (by simp)
      · rw [if_neg hcond]
        left
        simp only [List.length_append, List.length_cons]
        omega

/-! ### Claims -/

/-- Claim C3: whenever the batch translation call fails with an exception,
`translate_text` does not propagate it: the whole result is the single
descriptive error string — a length-1 sequence of translations, reassembled
into one paragraph — regardless of how many chunks the input produced. -/
theorem backend_failure_single_error (e : List Char) (x : PyValue)
    (hf : pyFalsy x = false) (hs : pyStrip (pyStr x) ≠ []) :
    (translate_batch (fun _ => .error e) (chunk (pyStr x) 450)).length = 1 ∧
    translate_textTraced (fun _ => .error e) x = (.str (errorMessage e), 1) := by
  constructor
  · simp [translate_batch]
  · simp only [translate_textTraced, hf, Bool.false_or]
    rw [if_neg (by simp [hs])]
    simp [translate_batch, reassemble_singleton]

set_option maxRecDepth 40000 in
/-- Witness for C3: a two-line, 601-character input is chunked into two
chunks, yet a failing backend yields the single error string. -/
theorem backend_failure_single_error_witness :
    pyFalsy (.str (List.replicate 300 'c' ++ '\n' :: List.replicate 300 'd')) = false ∧
    pyStrip (pyStr (.str (List.replicate 300 'c' ++ '\n' :: List.replicate 300 'd'))) ≠ [] ∧
    (chunk (List.replicate 300 'c' ++ '\n' :: List.replicate 300 'd') 450).length = 2 ∧
    ((translate_batch (fun _ => .error ('t' :: []))
        (chunk (pyStr (.str (List.replicate 300 'c' ++ '\n' :: List.replicate 300 'd'))) 450)).length = 1 ∧
      translate_textTraced (fun _ => .error ('t' :: []))
          (.str (List.replicate 300 'c' ++ '\n' :: List.replicate 300 'd')) =
        (.str (errorMessage ('t' :: [])), 1)) :=
  ⟨by decide, by decide, by decide,
    backend_failure_single_error ('t' :: []) _ (by decide) (by decide)⟩

/-- Claim C6: a single line (no line-boundary characters) longer than the
maximum chunk length 450 is never split: the chunker returns exactly one
chunk, the line with surrounding whitespace stripped. -/
theorem single_long_line_one_chunk (t : List Char)
    (hb : ∀ c ∈ t, isLineBreak c = false) (hl : 450 < t.length) :
    chunk t 450 = [pyStrip t] := by
  have hne : t ≠ [] := by
    intro he; rw [he] at hl; simp at hl
  rw [chunk, pySplitlines_no_break t hne hb]
  simp only [List.foldl_cons, List.foldl_nil, chunkStep]
  rw [if_pos (by simp; omega)]
  simp [flushChunk, hne]

set_option maxRecDepth 40000 in
/-- Witness for C6: a single 451-character line becomes one oversized chunk. -/
theorem single_long_line_one_chunk_witness :
    (∀ c ∈ List.replicate 451 'b', isLineBreak c = false) ∧
    450 < (List.replicate 451 'b').length ∧
    chunk (List.replicate 451 'b') 450 = [pyStrip (List.replicate 451 'b')] :=
  ⟨by decide, by decide, single_long_line_one_chunk _ (by decide) (by decide)⟩

/-- Claim C7: for empty or whitespace-only input, `translate_text` returns the
input unchanged and performs zero backend invocations. -/
theorem whitespace_input_unchanged_no_backend (b : Backend) (t : List Char)
    (h : ∀ c ∈ t, pyIsSpace c = true) :
    translate_textTraced b (.str t) = (.str t, 0) := by
  have hs := pyStrip_eq_nil_of_all_space t h
  simp [translate_textTraced, pyStr, hs]

/-- Witness for C7 at the whitespace string `" \t\n"`. -/
theorem whitespace_input_unchanged_no_backend_witness :
    (∀ c ∈ (' ' :: '\t' :: '\n' :: []), pyIsSpace c = true) ∧
    translate_textTraced idBackend (.str (' ' :: '\t' :: '\n' :: [])) =
      (.str (' ' :: '\t' :: '\n' :: []), 0) :=
  ⟨by decide, whitespace_input_unchanged_no_backend idBackend _ (by decide)⟩

/-- Claim C8 counterexample: the whitespace-only input `" "` does not produce
empty output — the pipeline returns the input string `" "` itself, which is
not the empty string (though the backend is indeed not invoked). -/
theorem whitespace_input_output_not_empty :
    translate_textTraced idBackend (.str (' ' :: [])) = (.str (' ' :: []), 0) ∧
    PyValue.str (' ' :: []) ≠ .str [] := by
  constructor
  · decide
  · decide

/-- Claim C8 (amended): empty or whitespace-only input is returned unchanged
without invoking the backend, so the output carries no non-whitespace
content; the output is the empty string exactly when the input is. -/
theorem whitespace_input_output_no_content (b : Backend) (t : List Char)
    (h : ∀ c ∈ t, pyIsSpace c = true) :
    translate_textTraced b (.str t) = (.str t, 0) ∧ content t = [] := by
  constructor
  · have hs := pyStrip_eq_nil_of_all_space t h
    simp [translate_textTraced, pyStr, hs]
  · simp only [content, List.filter_eq_nil_iff]
    intro c hc
    simp [h c hc]

/-- Witness for the amended C8 at the whitespace string `" \t"`. -/
theorem whitespace_input_output_no_content_witness :
    (∀ c ∈ (' ' :: '\t' :: []), pyIsSpace c = true) ∧
    (translate_textTraced idBackend (.str (' ' :: '\t' :: [])) =
        (.str (' ' :: '\t' :: []), 0) ∧
      content (' ' :: '\t' :: []) = []) :=
  ⟨by decide, whitespace_input_output_no_content idBackend _ (by decide)⟩

/-- Claim C10: `translate_text` accepts arbitrary values: any falsy value or
value whose string conversion strips to nothing is returned unchanged (its
type preserved, with no backend call); every other value is first coerced
with `str()` and then processed exactly as that string. -/
theorem translate_text_arbitrary_values (b : Backend) (x : PyValue) :
    (pyFalsy x = true ∨ pyStrip (pyStr x) = [] →
      translate_textTraced b x = (x, 0)) ∧
    (pyFalsy x = false → pyStrip (pyStr x) ≠ [] →
      translate_textTraced b x = translate_textTraced b (.str (pyStr x))) := by
  constructor
  · rintro (hf | hs)
    · simp [translate_textTraced, hf]
    · simp [translate_textTraced, hs]
  · intro hf hs
    have hne : pyStr x ≠ [] := ne_nil_of_pyStrip_ne_nil hs
    have e1 : pyFalsy (.str (pyStr x)) = (pyStr x).isEmpty := rfl
    have e2 : pyStr (.str (pyStr x)) = pyStr x := rfl
    simp only [translate_textTraced, e1, e2]
    rw [if_neg (by simp [hf, hs]), if_neg (by simp [hne, hs])]

/-- Claim C2: a chunk can exceed the maximum length 450 only when it is (the
stripped form of) a single source line that itself exceeds 450 characters;
such a line is carried whole, never truncated or split mid-line. -/
theorem chunk_length_bound (t : List Char) (c : List Char)
    (hc : c ∈ chunk t 450) (hlong : 450 < c.length) :
    ∃ l ∈ pySplitlines t, c = pyStrip l ∧ 450 < l.length := by
  have key := chunk_fold_invariant 450 (pySplitlines t) [] ([], [])
    (by simp) (by simp) c (by simpa [chunk] using hc)
  rcases key with hlen | ⟨l, hl, hcl, hbig⟩
  · omega
  · exact ⟨l, by simpa using hl, hcl, hbig⟩

set_option maxRecDepth 40000 in
/-- Witness for C2: the 451-character single-line input is itself an
oversized chunk, coming from the one oversized source line. -/
theorem chunk_length_bound_witness :
    List.replicate 451 'a' ∈ chunk (List.replicate 451 'a') 450 ∧
    450 < (List.replicate 451 'a').length ∧
    ∃ l ∈ pySplitlines (List.replicate 451 'a'),
      List.replicate 451 'a' = pyStrip l ∧ 450 < l.length :=
  ⟨by decide, by decide, chunk_length_bound _ _ (by decide) (by decide)⟩

set_option maxRecDepth 40000 in
/-- Claim C4 is violated by the code: on the input `"\n" + "x" * 449` (an
empty line followed by a 449-character line) the chunker emits the empty
string as its first chunk — the buffer `" "` passes the `if current_chunk:`
truthiness test of line 30 and is only then stripped to `""` — although the
input has non-whitespace content and so reaches the chunker. -/
theorem chunker_emits_empty_chunk :
    chunk ('\n' :: List.replicate 449 'x') 450 =
      ([] :: List.replicate 449 'x' :: []) ∧
    ([] : List Char) ∈ chunk ('\n' :: List.replicate 449 'x') 450 ∧
    pyStrip ('\n' :: List.replicate 449 'x') ≠ [] := by
  exact ⟨by decide, by decide, by decide⟩

/-- Claim C9: in the spreadsheet path, the pipeline runs independently on
exactly the cells holding a string with non-whitespace content; all other
cells (non-strings, and empty or whitespace-only strings) pass through
unchanged; the row `["Hola", 42, ""]` with the stub backend becomes
`["Hello", 42, ""]`. -/
theorem spreadsheet_cells_pipeline :
    (∀ (b : Backend) (x : PyValue), (∀ s : List Char, x ≠ .str s) →
      cellTransform b x = x) ∧
    (∀ (b : Backend) (s : List Char), pyStrip s = [] →
      cellTransform b (.str s) = .str s) ∧
    (∀ (b : Backend) (s : List Char), pyStrip s ≠ [] →
      cellTransform b (.str s) = translate_text b (.str s)) ∧
    applymap (cellTransform stubBackend)
        ((.str ("Hola").data :: .int 42 :: .str [] :: []) :: []) =
      ((.str ("Hello").data :: .int 42 :: .str [] :: []) :: []) := by
  refine ⟨?_, ?_, ?_, by decide⟩
  · intro b x hx
    cases x with
    | str s => exact absurd rfl (hx s)
    | int n => rfl
    | bool v => rfl
    | none => rfl
  · intro b s hs
    simp [cellTransform, hs]
  · intro b s hs
    simp [cellTransform, hs]

/-- Witness for C9: a non-string cell (`42`), a whitespace-only string cell
(`""`), and a contentful string cell (`"Hola"`, under the stub backend). -/
theorem spreadsheet_cells_pipeline_witness :
    cellTransform stubBackend (.int 42) = .int 42 ∧
    cellTransform stubBackend (.str []) = .str [] ∧
    cellTransform stubBackend (.str ("Hola").data) =
      translate_text stubBackend (.str ("Hola").data) :=
  ⟨spreadsheet_cells_pipeline.1 stubBackend (.int 42)
      (fun s h => PyValue.noConfusion h),
    spreadsheet_cells_pipeline.2.1 stubBackend [] (by decide),
    spreadsheet_cells_pipeline.2.2.1 stubBackend ("Hola").data (by decide)⟩

/-- Claim C1: with a backend that succeeds, translating each chunk with `f`,
the translated segments are the chunks' images in order — equal count, the
i-th segment is the backend's output for the i-th chunk — and the final
document joins them in order with blank lines; in particular the stub backend
on the chunk sequence `["Hola", "mundo"]` reassembles to `"Hello\n\nworld"`. -/
theorem translate_success_alignment (f : List Char → List Char) (t : List Char)
    (h : pyStrip t ≠ []) :
    (translate_batch (okMap f) (chunk t 450)).length = (chunk t 450).length ∧
    (∀ i, (translate_batch (okMap f) (chunk t 450)).get? i =
      ((chunk t 450).get? i).map f) ∧
    translate_textTraced (okMap f) (.str t) =
      (.str (reassemble (translate_batch (okMap f) (chunk t 450))), 1) ∧
    reassemble (translate_batch stubBackend (("Hola").data :: ("mundo").data :: [])) =
      ("Hello\n\nworld").data := by
  refine ⟨?_, ?_, ?_, by decide⟩
  · simp [translate_batch, okMap]
  · intro i
    simp [translate_batch, okMap]
  · exact translate_textTraced_str_run (okMap f) t h

/-- Witness for C1 at the input `"Hola"` under the stub translation. -/
theorem translate_success_alignment_witness :
    pyStrip ("Hola").data ≠ [] ∧
    ((translate_batch (okMap stubF) (chunk ("Hola").data 450)).length =
        (chunk ("Hola").data 450).length ∧
      (∀ i, (translate_batch (okMap stubF) (chunk ("Hola").data 450)).get? i =
        ((chunk ("Hola").data 450).get? i).map stubF) ∧
      translate_textTraced (okMap stubF) (.str ("Hola").data) =
        (.str (reassemble (translate_batch (okMap stubF) (chunk ("Hola").data 450))), 1) ∧
      reassemble (translate_batch stubBackend (("Hola").data :: ("mundo").data :: [])) =
        ("Hello\n\nworld").data) :=
  ⟨by decide, translate_success_alignment stubF ("Hola").data (by decide)⟩

/-- Claim C5: with the identity backend (each chunk translated to itself),
the pipeline output — source lines re-joined by single spaces inside chunks
and chunks joined by double newlines — has exactly the input's non-whitespace
content, in order. -/
theorem identity_backend_preserves_content (t : List Char) :
    content (strOf (translate_text idBackend (.str t))) = content t := by
  by_cases h : pyStrip t = []
  · rw [translate_text]
    have : translate_textTraced idBackend (.str t) = (.str t, 0) := by
      simp [translate_textTraced, pyStr, h]
    rw [this]
    rfl
  · rw [translate_text, translate_textTraced_str_run idBackend t h]
    show content (reassemble (translate_batch idBackend (chunk t 450))) = content t
    rw [show translate_batch idBackend (chunk t 450) = chunk t 450 from rfl]
    rw [content_reassemble, content_chunk]

/-- Witness for C10: `0` (falsy) is returned as the integer `0` itself with no
backend call; the truthy integer `7` is processed as the string `"7"`. -/
theorem translate_text_arbitrary_values_witness :
    translate_textTraced idBackend (.int 0) = (.int 0, 0) ∧
    translate_textTraced idBackend (.int 7) =
      translate_textTraced idBackend (.str (pyStr (.int 7))) :=
  ⟨(translate_text_arbitrary_values idBackend (.int 0)).1 (by decide),
    (translate_text_arbitrary_values idBackend (.int 7)).2 (by decide) (by decide)⟩

end SpanishTranslator
